import Mathlib

/-!
Verification of the `aiocogs` concurrency toolkit.

Shallow embedding of the coordination primitives in
`aiocogs/__init__.py` and `aiocogs/helpers.py`, together with theorems
settling the specification's claims about them.

Modelling conventions:
* Python numbers occurring in rate/period arithmetic are modelled as `ℚ`.
* Python object *identity* (`is`) is modelled by giving every object a
  numeric identity; two objects are the same object iff their identities
  are equal, while "equal-looking" distinct objects carry distinct
  identities.
* Python truthiness of a number is "nonzero".
* A raised `ZeroDivisionError` is modelled by `Except.error`.
* Event-loop scheduling is modelled by making each operation an explicit
  state transformer; a scheduled expiry callback is a later, separate
  transition and is not part of the step that schedules it.
-/

/-- Python-style division on `ℚ`: `a / b`, raising `ZeroDivisionError`
when the divisor is zero (Lean's `/` on `ℚ` would silently return 0). -/
inductive PyErr where
  | zeroDivision
deriving DecidableEq, Repr

def pydiv (a b : ℚ) : Except PyErr ℚ :=
  if b = 0 then .error .zeroDivision else .ok (a / b)

namespace Valve

/-- Model of `Valve.count`: `len(tuple(filter(key, self._state)))` — the number of
active values adhering to the key. -/
def count (state : List V) (key : V → Bool) : ℕ :=
  (state.filter key).length

/-- Model of `Valve.left`: `limit - self.count(key)` — the room left under the
limit (may be negative when already over the limit). -/
def left (state : List V) (key : V → Bool) (limit : ℚ) : ℚ :=
  limit - count state key

/-- Model of `Valve.observe`: appends `value` to the active sequence
(`self._state.append(value)`) and schedules its removal after `period`.
The scheduled removal fires later, outside this step, so only the append
is part of this transition; `period` only parameterises that timer. -/
def observe (state : List V) (value : V) (period : ℚ) : List V :=
  state ++ [value]

/-- Model of `Valve.check`: computes `left = self.left(key, limit)`, runs
`self.observe(value, period)` when `bypass or left` is truthy (a number
is truthy iff nonzero), and returns `left` together with the resulting
active sequence. -/
def check (state : List V) (value : V) (period limit : ℚ) (key : V → Bool)
    (bypass : Bool) : ℚ × List V :=
  let l := left state key limit
  if bypass = true ∨ l ≠ 0 then (l, observe state value period) else (l, state)

end Valve

/-- Model of `Sling.check`: computes the pre-admission room, rescales the period by
`((left + trail) / limit) * rate` (Python raises `ZeroDivisionError` when
`limit = 0`), unconditionally observes the value with that effective
period, and returns `max left 0`.  The `.ok` payload carries, in order,
the returned value `max left 0`, the effective period passed to
`observe`, and the new active sequence. -/
def Sling.check (state : List V) (value : V) (period limit trail rate : ℚ)
    (key : V → Bool) : Except PyErr (ℚ × ℚ × List V) :=
  let l := Valve.left state key limit
  match pydiv (l + trail) limit with
  | .error e => .error e
  | .ok q =>
      let period := period * q * rate
      .ok (max l 0, period, Valve.observe state value period)

/-- C1 — counterexample.  With two active values matching the key and
`limit = 1` (so `count ≥ limit`), `check` with `bypass = False` still
tracks the new value: `left = -1` is truthy in Python, so `observe` runs
and the active sequence changes, contradicting the claim that no tracking
happens when `count(key) ≥ limit`. -/
theorem valve_check_over_limit_still_tracks :
    (1 : ℚ) ≤ (Valve.count [0, 0] (fun _ => true) : ℚ) ∧
      (Valve.check ([0, 0] : List ℕ) 7 1 1 (fun _ => true) false).2 = [0, 0, 7] := by
  constructor
  · norm_num [Valve.count]
  · norm_num [Valve.check, Valve.left, Valve.count, Valve.observe]

/-- C1 — amended.  With `bypass = False`, `check` always returns the
pre-admission room `limit - count(key)`; that return value is
non-positive exactly when `count(key) ≥ limit`; and the value is tracked
exactly when the pre-admission room is nonzero — so a call with
`count(key) < limit` tracks, a call with `count(key) = limit` does not,
but a call with `count(key) > limit` tracks as well, because the
admission test is truthiness of `left`, not `left > 0`. -/
theorem valve_check_amended (state : List V) (value : V) (period limit : ℚ)
    (key : V → Bool) :
    (Valve.check state value period limit key false).1 =
        Valve.left state key limit ∧
      (Valve.check state value period limit key false).2 =
        (if Valve.left state key limit = 0 then state else state ++ [value]) ∧
      (limit ≤ (Valve.count state key : ℚ) ↔
        (Valve.check state value period limit key false).1 ≤ 0) := by
  have h1 : (Valve.check state value period limit key false).1 =
      Valve.left state key limit := by
    by_cases h : Valve.left state key limit = 0 <;> simp [Valve.check, h]
  refine ⟨h1, ?_, ?_⟩
  · by_cases h : Valve.left state key limit = 0 <;>
      simp [Valve.check, Valve.observe, h]
  · rw [h1]
    simp [Valve.left, sub_nonpos]

/-- C3 — counterexample.  With `period = 1`, `limit = 2`, `trail = 1`,
`rate = 1` (all positive) and the occupancy one higher in the second call
(pre-admission room 1 instead of 2), the effective period drops from
`3/2` to `1`: it is *not* strictly greater at higher occupancy. -/
theorem sling_period_claim_counterexample :
    Sling.check ([] : List ℕ) 9 1 2 1 1 (fun _ => true) = .ok (2, 3 / 2, [9]) ∧
      Sling.check ([5] : List ℕ) 9 1 2 1 1 (fun _ => true) = .ok (1, 1, [5, 9]) ∧
      ¬ ((1 : ℚ) > 3 / 2) := by
  refine ⟨?_, ?_, by norm_num⟩ <;>
    norm_num [Sling.check, pydiv, Valve.left, Valve.count, Valve.observe]

/-- C3 — amended.  With `period`, `limit`, `trail`, `rate` positive and
everything else fixed, the effective period
`period * ((left + trail) / limit) * rate` is strictly *smaller* when the
occupancy is higher (pre-admission room `left` smaller): the scaling is
strictly increasing in `left`, the opposite direction from the claim. -/
theorem sling_check_period_antitone (s1 s2 : List V) (v : V)
    (period limit trail rate : ℚ) (key : V → Bool)
    (hp : 0 < period) (hl : 0 < limit) (ht : 0 < trail) (hr : 0 < rate)
    (hcount : Valve.count s1 key < Valve.count s2 key) :
    ∃ r1 r2, Sling.check s1 v period limit trail rate key = .ok r1 ∧
      Sling.check s2 v period limit trail rate key = .ok r2 ∧
      r2.2.1 < r1.2.1 := by
  have hlt : Valve.left s2 key limit < Valve.left s1 key limit := by
    have : (Valve.count s1 key : ℚ) < Valve.count s2 key := by exact_mod_cast hcount
    simp only [Valve.left]
    linarith
  have hdiv : (Valve.left s2 key limit + trail) / limit <
      (Valve.left s1 key limit + trail) / limit :=
    (div_lt_div_iff_of_pos_right hl).mpr (by linarith)
  have e1 : Sling.check s1 v period limit trail rate key =
      .ok (max (Valve.left s1 key limit) 0,
        period * ((Valve.left s1 key limit + trail) / limit) * rate,
        Valve.observe s1 v
          (period * ((Valve.left s1 key limit + trail) / limit) * rate)) := by
    simp [Sling.check, pydiv, hl.ne']
  have e2 : Sling.check s2 v period limit trail rate key =
      .ok (max (Valve.left s2 key limit) 0,
        period * ((Valve.left s2 key limit + trail) / limit) * rate,
        Valve.observe s2 v
          (period * ((Valve.left s2 key limit + trail) / limit) * rate)) := by
    simp [Sling.check, pydiv, hl.ne']
  refine ⟨_, _, e1, e2, ?_⟩
  exact mul_lt_mul_of_pos_right (mul_lt_mul_of_pos_left hdiv hp) hr

/-- C3 — witness for `sling_check_period_antitone` at `period = 1`,
`limit = 2`, `trail = 1`, `rate = 1`, occupancy 0 versus 1. -/
theorem sling_check_period_antitone_witness :
    ∃ r1 r2, Sling.check ([] : List ℕ) 9 1 2 1 1 (fun _ => true) = .ok r1 ∧
      Sling.check ([5] : List ℕ) 9 1 2 1 1 (fun _ => true) = .ok r2 ∧
      r2.2.1 < r1.2.1 :=
  sling_check_period_antitone [] [5] 9 1 2 1 1 (fun _ => true)
    (by norm_num) (by norm_num) (by norm_num) (by norm_num)
    (by simp [Valve.count])

/-- C10 — `Sling.check` with `limit = 0` raises `ZeroDivisionError` while
computing `(left + trail) / limit`: no value is tracked (no `.ok` state is
produced) and nothing is returned; for any nonzero limit the call
succeeds. -/
theorem sling_check_zero_limit (s : List V) (v : V) (period trail rate : ℚ)
    (key : V → Bool) :
    Sling.check s v period 0 trail rate key = .error .zeroDivision ∧
      ∀ limit : ℚ, limit ≠ 0 →
        ∃ x, Sling.check s v period limit trail rate key = .ok x := by
  constructor
  · simp [Sling.check, pydiv]
  · intro limit h
    refine ⟨(max (Valve.left s key limit) 0,
      period * ((Valve.left s key limit + trail) / limit) * rate,
      Valve.observe s v
        (period * ((Valve.left s key limit + trail) / limit) * rate)), ?_⟩
    simp [Sling.check, pydiv, h]

/-- C10 — witness for `sling_check_zero_limit` at a concrete state and
`limit = 2` for the nonzero-limit part. -/
theorem sling_check_zero_limit_witness :
    Sling.check ([] : List ℕ) 3 1 0 1 1 (fun _ => true) = .error .zeroDivision ∧
      ∃ x, Sling.check ([] : List ℕ) 3 1 2 1 1 (fun _ => true) = .ok x :=
  ⟨(sling_check_zero_limit [] 3 1 1 1 (fun _ => true)).1,
    (sling_check_zero_limit [] 3 1 1 1 (fun _ => true)).2 2 (by norm_num)⟩

/-- The mutable state captured by a `cache` wrapper's closure: `states`
maps a state key to its cached result (a Python dict, so keys are unique),
and `events` is the set of keys holding a pending-computation
`asyncio.Event` marker. -/
structure CacheState (κ ρ : Type) where
  states : List (κ × ρ)
  events : List κ
deriving DecidableEq, Repr

/-- One call of the `cache` wrapper, `aiocogs.cache.wrapper`, at key
`key`.  The wait phase (`events[state]` lookup, `determine`, and
`wait_for` with a swallowed `TimeoutError`) mutates nothing and is
elided.  Then, translating the source: if `states[state]` exists its
value is returned unchanged; otherwise a pending marker is installed
(`events[state] = Event()`), the wrapped function runs — its outcome is
the `outcome` argument — and in the `finally` block the marker is popped
and signalled (`events.pop(state).set()`); on success the result is
stored only while `len(states) < maxsize`, and the outcome (result or
propagated exception) is returned. -/
def cacheWrapperStep [DecidableEq κ] (maxsize : ℕ) (c : CacheState κ ρ)
    (key : κ) (outcome : Except ε ρ) : CacheState κ ρ × Except ε ρ :=
  match c.states.find? (fun entry => entry.1 = key) with
  | some entry => (c, .ok entry.2)
  | none =>
      let pending := if key ∈ c.events then c.events else key :: c.events
      let cleared := pending.filter (fun k => k ≠ key)
      match outcome with
      | .error e => (⟨c.states, cleared⟩, .error e)
      | .ok r =>
          if c.states.length < maxsize then
            (⟨c.states ++ [(key, r)], cleared⟩, .ok r)
          else
            (⟨c.states, cleared⟩, .ok r)


/-- The states a `cache` wrapper's closure can be in over its lifetime:
the maps start empty (`states = {}`, `events = {}`) and evolve only
through wrapper calls. -/
inductive CacheReachable {κ ρ : Type} (ε : Type) [DecidableEq κ]
    (maxsize : ℕ) : CacheState κ ρ → Prop where
  | init : CacheReachable ε maxsize ⟨[], []⟩
  | step {c : CacheState κ ρ} (key : κ) (outcome : Except ε ρ) :
      CacheReachable ε maxsize c →
      CacheReachable ε maxsize (cacheWrapperStep maxsize c key outcome).1

/-- A single wrapper call either leaves the cached-results map unchanged
or appends exactly one new entry, and it appends only while the map is
strictly below `maxsize`. -/
theorem cacheWrapperStep_states [DecidableEq κ] (maxsize : ℕ)
    (c : CacheState κ ρ) (key : κ) (outcome : Except ε ρ) :
    ((cacheWrapperStep maxsize c key outcome).1).states = c.states ∨
      ∃ r, ((cacheWrapperStep maxsize c key outcome).1).states =
          c.states ++ [(key, r)] ∧ c.states.length < maxsize := by
  cases hfind : c.states.find? (fun entry => entry.1 = key) with
  | some entry => exact Or.inl (by simp [cacheWrapperStep, hfind])
  | none =>
      cases outcome with
      | error e => exact Or.inl (by simp [cacheWrapperStep, hfind])
      | ok r =>
          by_cases hlen : c.states.length < maxsize
          · exact Or.inr ⟨r, by simp [cacheWrapperStep, hfind, hlen], hlen⟩
          · exact Or.inl (by simp [cacheWrapperStep, hfind, hlen])

/-- C4 — at every point in a wrapper's lifetime the cached-results map
holds at most `maxsize` entries; moreover a call never evicts an entry,
and once the map holds `maxsize` entries no call changes it — so the
(`maxsize`+1)-th distinct key is never cached. -/
theorem cache_maxsize_invariant (ε : Type) [DecidableEq κ] (maxsize : ℕ)
    (c : CacheState κ ρ) (hc : CacheReachable ε maxsize c) :
    c.states.length ≤ maxsize ∧
      (∀ (key : κ) (outcome : Except ε ρ),
        ∀ entry ∈ c.states,
          entry ∈ ((cacheWrapperStep maxsize c key outcome).1).states) ∧
      (∀ (key : κ) (outcome : Except ε ρ), maxsize ≤ c.states.length →
        ((cacheWrapperStep maxsize c key outcome).1).states = c.states) := by
  have hlen : c.states.length ≤ maxsize := by
    induction hc with
    | init => simp
    | step key outcome hc ih =>
        rcases cacheWrapperStep_states maxsize _ key outcome with h | ⟨r, h, hlt⟩
        · rw [h]; exact ih
        · rw [h]; simp only [List.length_append, List.length_singleton]
          omega
  refine ⟨hlen, ?_, ?_⟩
  · intro key outcome entry hmem
    rcases cacheWrapperStep_states maxsize c key outcome with h | ⟨r, h, _⟩
    · rw [h]; exact hmem
    · rw [h]; exact List.mem_append_left _ hmem
  · intro key outcome hcap
    rcases cacheWrapperStep_states maxsize c key outcome with h | ⟨r, h, hlt⟩
    · exact h
    · omega

/-- The wrapper state reached from a fresh `cache` wrapper with
`maxsize = 1` after caching key `0` and then attempting key `1`. -/
def cacheDemoState : CacheState ℕ ℕ :=
  (cacheWrapperStep 1 (cacheWrapperStep 1 (⟨[], []⟩ : CacheState ℕ ℕ) 0
    (Except.ok 5 : Except Unit ℕ)).1 1 (Except.ok 6 : Except Unit ℕ)).1

/-- C4 — witness for `cache_maxsize_invariant` at the concrete reachable
state `cacheDemoState`. -/
theorem cache_maxsize_invariant_witness :
    cacheDemoState.states.length ≤ 1 ∧
      (∀ (key : ℕ) (outcome : Except Unit ℕ),
        ∀ entry ∈ cacheDemoState.states,
          entry ∈ ((cacheWrapperStep 1 cacheDemoState key outcome).1).states) ∧
      (∀ (key : ℕ) (outcome : Except Unit ℕ),
        1 ≤ cacheDemoState.states.length →
          ((cacheWrapperStep 1 cacheDemoState key outcome).1).states =
            cacheDemoState.states) :=
  cache_maxsize_invariant Unit 1 cacheDemoState
    (CacheReachable.step 1 (Except.ok 6)
      (CacheReachable.step 0 (Except.ok 5) CacheReachable.init))

/-- C5 — when the wrapped function raises during a fresh computation
(no cached entry for the key), the `finally` block pops and signals the
pending marker, no cache entry is written, and the exception propagates
unchanged to the caller. -/
theorem cache_failure_clears_marker [DecidableEq κ] (maxsize : ℕ)
    (c : CacheState κ ρ) (key : κ) (e : ε)
    (hfresh : ∀ entry ∈ c.states, entry.1 ≠ key) :
    (cacheWrapperStep maxsize c key (Except.error e)).2 = Except.error e ∧
      ((cacheWrapperStep maxsize c key (Except.error e)).1).states =
        c.states ∧
      key ∉ ((cacheWrapperStep maxsize c key (Except.error e)).1).events := by
  have hfind : c.states.find? (fun entry => entry.1 = key) = none := by
    refine List.find?_eq_none.mpr ?_
    intro x hx
    simp [hfresh x hx]
  refine ⟨?_, ?_, ?_⟩ <;> simp [cacheWrapperStep, hfind]

/-- C5 — witness for `cache_failure_clears_marker`: a wrapper holding a
cached result for key `0` sees the wrapped function raise on the fresh
key `1`. -/
theorem cache_failure_clears_marker_witness :
    (cacheWrapperStep 1 (⟨[(0, 5)], []⟩ : CacheState ℕ ℕ) 1
        (Except.error ())).2 = Except.error () ∧
      ((cacheWrapperStep 1 (⟨[(0, 5)], []⟩ : CacheState ℕ ℕ) 1
        (Except.error ())).1).states = [(0, 5)] ∧
      1 ∉ ((cacheWrapperStep 1 (⟨[(0, 5)], []⟩ : CacheState ℕ ℕ) 1
        (Except.error ())).1).events :=
  cache_failure_clears_marker 1 ⟨[(0, 5)], []⟩ 1 () (by decide)

/-- An object identity: Python `is` holds between two references iff they
denote the same object, modelled as equality of numeric identities. -/
abbrev ObjId := ℕ

/-- The module-level sentinel `marker = object()`. -/
def marker : ObjId := 0

/-- One turn of the `while True` loop inside `infinite.wrapper` starting
at call index `i` with `fuel` calls allowed: each turn awaits
`execute()`, continues unless the result *is* the module-level `marker`
(the `signal` parameter of `infinite` is never consulted), and otherwise
breaks.  Returns the index of the call whose result ended the loop, or
`none` if the loop is still running after `fuel` calls. -/
def infiniteLoop (execute : ℕ → ObjId) : ℕ → ℕ → Option ℕ
  | 0, _ => none
  | fuel + 1, i =>
      if execute i = marker then some i else infiniteLoop execute fuel (i + 1)

/-- A handler registered on a `Stream`, identified by `id`; `result` is
the identity of the object its invocation with the `start` arguments
resolves to (awaited when awaitable). -/
structure Handler where
  id : ℕ
  result : ObjId
deriving DecidableEq, Repr

namespace Stream

/-- The class-level sentinel `Stream.signal = object()`, a different
object from the module-level `marker`. -/
def signal : ObjId := 1

/-- The `for function in single` loop of `Stream.start`: invokes handlers
in order, breaking when a resolved result *is* `Stream.signal`; returns
the invoked prefix together with the final value of the loop variable
`function` — `none` when the list is empty, in which case the trailing
`return function` raises `NameError` (the loop variable was never
bound). -/
def scan : List Handler → List Handler × Option Handler
  | [] => ([], none)
  | f :: rest =>
      if f.result = signal then ([f], some f)
      else
        let next := scan rest
        (f :: next.1, some (next.2.getD f))

/-- Model of `Stream.start`: gathers every "bundle" handler's invocation into a
concurrently scheduled future (all of them are invoked, regardless of the
"single" phase), then scans the "single" handlers.  Returns the invoked
bundle handlers, the invoked single handlers in order, and the handler
returned by `start` (`none` modelling the `NameError` of `return
function` after a zero-iteration loop). -/
def start (bundle single : List Handler) :
    List Handler × List Handler × Option Handler :=
  (bundle, scan single)

end Stream

/-- C6 — `Stream.start` invokes the "single" handlers strictly in
registration order; the scan stops at the first handler whose resolved
result is the stop signal (identity-compared): exactly the handlers up to
and including it are invoked, it is returned, and every "bundle" handler
is invoked regardless. -/
theorem stream_start_stops_at_first_signal (bundle pre post : List Handler)
    (f : Handler) (hpre : ∀ g ∈ pre, g.result ≠ Stream.signal)
    (hf : f.result = Stream.signal) :
    Stream.start bundle (pre ++ f :: post) = (bundle, pre ++ [f], some f) := by
  unfold Stream.start
  have hscan : ∀ pre : List Handler, (∀ g ∈ pre, g.result ≠ Stream.signal) →
      Stream.scan (pre ++ f :: post) = (pre ++ [f], some f) := by
    intro pre
    induction pre with
    | nil => intro _; simp [Stream.scan, hf]
    | cons g rest ih =>
        intro h
        have hg : g.result ≠ Stream.signal := h g (by simp)
        have := ih (fun x hx => h x (by simp [hx]))
        simp [List.cons_append, Stream.scan, if_neg hg, this]
  rw [hscan pre hpre]

/-- C6 — witness for `stream_start_stops_at_first_signal`: one bundle
handler, one non-signalling single handler, a signalling one, and a
later-registered one that is never invoked. -/
theorem stream_start_stops_at_first_signal_witness :
    Stream.start [⟨10, 7⟩] ([⟨11, 8⟩] ++ ⟨12, Stream.signal⟩ :: [⟨13, 9⟩]) =
      ([⟨10, 7⟩], [⟨11, 8⟩] ++ [(⟨12, Stream.signal⟩ : Handler)],
        some ⟨12, Stream.signal⟩) :=
  stream_start_stops_at_first_signal [⟨10, 7⟩] [⟨11, 8⟩] [⟨13, 9⟩]
    ⟨12, Stream.signal⟩ (by decide) rfl

/-- C9 — calling `Stream.start` with an empty "single" registration list
makes the `for` loop run zero iterations, so the final `return function`
references an unbound loop variable and raises `NameError` (modelled by
the `none` result) — even though every "bundle" handler was still
dispatched. -/
theorem stream_start_empty_single_name_error (bundle : List Handler) :
    Stream.start bundle [] = (bundle, [], none) := rfl

/-- C2 — the loop body of `infinite` tests `not result is marker` against
the module-level `marker`, never against the `signal` argument.  With a
caller-supplied sentinel object of identity `2` (a distinct object from
`marker`) and `execute` returning exactly that sentinel on every call,
the loop never exits within any number of calls — while a call returning
the module-level `marker` ends the loop at once.  This contradicts the
claim that the loop always exits on the call whose result is the supplied
signal sentinel. -/
theorem infinite_ignores_supplied_signal (fuel start : ℕ) :
    infiniteLoop (fun _ => 2) fuel start = none ∧
      infiniteLoop (fun _ => marker) (fuel + 1) start = some start := by
  constructor
  · induction fuel generalizing start with
    | zero => rfl
    | succ n ih => simpa [infiniteLoop, marker] using ih (start + 1)
  · simp [infiniteLoop]

/-- The `while left` loop of `ready`: with `left` iterations remaining it
awaits `queue.get()` — the `i`-th dequeue hands over completion
`queue i`, pushed by some task's done-callback — yields it, decrements
`left`, and repeats. -/
def readyLoop (queue : ℕ → τ) : ℕ → ℕ → List τ
  | 0, _ => []
  | left + 1, i => queue i :: readyLoop queue left (i + 1)

/-- Model of `ready`: registers a done-callback on each of the `tasks` pushing its
completion onto the shared queue, sets `left = len(tasks)`, and runs the
yield loop from the first dequeue. -/
def ready (tasks : List τ) (queue : ℕ → τ) : List τ :=
  readyLoop queue tasks.length 0

/-- The yield loop enumerates exactly the next `left` dequeues. -/
theorem readyLoop_eq_map_range (queue : ℕ → τ) (left i : ℕ) :
    readyLoop queue left i = (List.range' i left).map queue := by
  induction left generalizing i with
  | zero => rfl
  | succ n ih => simp [readyLoop, List.range', ih]

/-- C7 — for a batch of `N` submitted tasks, `ready` yields exactly `N`
items, each one a completed task taken from the shared handoff queue (the
`i`-th yield is the `i`-th dequeue), and then the loop terminates: it
runs exactly `len(tasks)` iterations. -/
theorem ready_yields_exactly_n (tasks : List τ) (queue : ℕ → τ) :
    ready tasks queue = (List.range tasks.length).map queue ∧
      (ready tasks queue).length = tasks.length := by
  have h : ready tasks queue = (List.range tasks.length).map queue := by
    rw [ready, readyLoop_eq_map_range, List.range_eq_range']
  exact ⟨h, by rw [h]; simp⟩

namespace helpers

/-- The per-element comparison used by `helpers.rank`: the arguments are
`(root, value)`, projected through `key` first when a key is supplied
(`if key: args = map(key, args)`). -/
def cmpK (compare : α → α → Bool) (key : Option (α → α)) (a b : α) : Bool :=
  match key with
  | none => compare a b
  | some k => compare (k a) (k b)

/-- Model of `helpers.rank`: walks the iterable from the front, incrementing the
index while `compare(*args)` holds of `(root, value)` (key-projected when
given) and breaking at the first failure; returns the index. -/
def rank (compare : α → α → Bool) (iterable : List α) (root : α)
    (key : Option (α → α)) : ℕ :=
  match iterable with
  | [] => 0
  | value :: rest =>
      if cmpK compare key root value then rank compare rest root key + 1
      else 0

/-- A sequence is ordered under the comparator (and key projection) when
no earlier element compares true against a later one: the ordering
`sort` maintains, in which `rank` computes insertion points. -/
def SortedBy (compare : α → α → Bool) (key : Option (α → α))
    (l : List α) : Prop :=
  l.Pairwise (fun a b => cmpK compare key a b = false)

end helpers

/-- Inserting `root` at its rank preserves the ordering, provided the
comparator is asymmetric and negatively transitive (what "ordered under
the comparator" presupposes). -/
theorem rank_insert_sortedBy (compare : α → α → Bool) (key : Option (α → α))
    (root : α)
    (hasymm : ∀ a b, helpers.cmpK compare key a b = true →
      helpers.cmpK compare key b a = false)
    (hneg : ∀ a b c, helpers.cmpK compare key a b = false →
      helpers.cmpK compare key b c = false →
      helpers.cmpK compare key a c = false) :
    ∀ l : List α, helpers.SortedBy compare key l →
      helpers.SortedBy compare key
        (l.take (helpers.rank compare l root key) ++
          root :: l.drop (helpers.rank compare l root key)) := by
  intro l
  induction l with
  | nil => intro _; simp [helpers.SortedBy, helpers.rank]
  | cons v rest ih =>
      intro hsort
      rw [helpers.SortedBy, List.pairwise_cons] at hsort
      obtain ⟨hv, hrest⟩ := hsort
      by_cases hc : helpers.cmpK compare key root v = true
      · rw [helpers.rank, if_pos hc, List.take_succ_cons, List.drop_succ_cons,
          List.cons_append]
        rw [helpers.SortedBy, List.pairwise_cons]
        refine ⟨?_, ih hrest⟩
        intro x hx
        rcases List.mem_append.mp hx with hx | hx
        · exact hv x (List.take_subset _ _ hx)
        · rcases List.mem_cons.mp hx with rfl | hx
          · exact hasymm _ v hc
          · exact hv x (List.drop_subset _ _ hx)
      · have hc' : helpers.cmpK compare key root v = false :=
          Bool.eq_false_iff.mpr hc
        rw [helpers.rank, if_neg hc, List.take_zero, List.drop_zero,
          List.nil_append]
        rw [helpers.SortedBy, List.pairwise_cons]
        refine ⟨?_, ?_⟩
        · intro x hx
          rcases List.mem_cons.mp hx with rfl | hx
          · exact hc'
          · exact hneg root v x hc' (hv x hx)
        · rw [List.pairwise_cons]
          exact ⟨hv, hrest⟩

/-- C8 — `helpers.rank` returns the length of the longest prefix of the
sequence on which the (key-projected) comparison holds of
`(root, element)`; the result therefore lies between `0` and the sequence
length; and for a comparator that orders (asymmetric, negatively
transitive), inserting `root` at the returned index into an
already-ordered sequence preserves the ordering. -/
theorem rank_spec (compare : α → α → Bool) (key : Option (α → α))
    (l : List α) (root : α)
    (hasymm : ∀ a b, helpers.cmpK compare key a b = true →
      helpers.cmpK compare key b a = false)
    (hneg : ∀ a b c, helpers.cmpK compare key a b = false →
      helpers.cmpK compare key b c = false →
      helpers.cmpK compare key a c = false) :
    helpers.rank compare l root key =
        (l.takeWhile (fun v => helpers.cmpK compare key root v)).length ∧
      helpers.rank compare l root key ≤ l.length ∧
      (helpers.SortedBy compare key l →
        helpers.SortedBy compare key
          (l.take (helpers.rank compare l root key) ++
            root :: l.drop (helpers.rank compare l root key))) := by
  refine ⟨?_, ?_, rank_insert_sortedBy compare key root hasymm hneg l⟩
  · induction l with
    | nil => rfl
    | cons v rest ih =>
        by_cases hc : helpers.cmpK compare key root v = true <;>
          simp [helpers.rank, List.takeWhile_cons, hc, ih]
  · induction l with
    | nil => exact Nat.le_refl 0
    | cons v rest ih =>
        by_cases hc : helpers.cmpK compare key root v = true <;>
          simp [helpers.rank, hc] <;> omega

/-- C8 — witness for `rank_spec`: ascending naturals under the
greater-than comparator used by `sort` (no key), inserting `4` into
`[1, 3, 5]`. -/
theorem rank_spec_witness :
    helpers.rank (fun a b : Fin 8 => decide (b < a)) [1, 3, 5] 4 none =
        (List.takeWhile
          (fun v => helpers.cmpK (fun a b : Fin 8 => decide (b < a)) none 4 v)
          [1, 3, 5]).length ∧
      helpers.rank (fun a b : Fin 8 => decide (b < a)) [1, 3, 5] 4 none ≤
        ([1, 3, 5] : List (Fin 8)).length ∧
      (helpers.SortedBy (fun a b : Fin 8 => decide (b < a)) none [1, 3, 5] →
        helpers.SortedBy (fun a b : Fin 8 => decide (b < a)) none
          (List.take
              (helpers.rank (fun a b : Fin 8 => decide (b < a)) [1, 3, 5] 4 none)
              [1, 3, 5] ++
            4 :: List.drop
              (helpers.rank (fun a b : Fin 8 => decide (b < a)) [1, 3, 5] 4 none)
              [1, 3, 5])) :=
  rank_spec (fun a b : Fin 8 => decide (b < a)) none [1, 3, 5] 4
    (by decide) (by decide)
